import Mathlib

/-!
Verification of the efsec session layer (`src/efsec-wasm/src/lib.rs`).

The repository's source file is a thin boundary layer (`EfSecAccount`,
`EfSecSession`, `EfSecOutboundGroupSession`, `EfSecInboundGroupSession`)
over an external double-ratchet / sender-key engine that is not part of
this repository's sources.  The boundary layer is translated here line by
line from `lib.rs`; the inner engine (accounts, pairwise double-ratchet
sessions, group hash-ratchet sessions) is modelled from the specification,
with each such definition marked `Modelled from the spec:`.

Serialization codecs (serde_json, base64) are external collaborators of the
boundary layer; where a boundary function calls one, the codec is passed as
an explicit function argument (`ser`, `parse`) so that the boundary logic —
the part that lives in `lib.rs` — is captured exactly: the order of parse
steps, which failures are surfaced, and which results are silently replaced
by a default.
-/

namespace EfSec

/-- Modulus for 32-bit key material arithmetic. -/
def M32 : Nat := 4294967296

/-- Number of unicode scalar values; modulus for plaintext-unit arithmetic. -/
def MU : Nat := 1114112

/-- Modelled from the spec: one-way chain-key advance (hash ratchet step). -/
def kdfNext (k : Nat) : Nat := (k * 1103515245 + 12345) % M32

/-- Modelled from the spec: message-key derivation from a chain key. -/
def kdfMsg (k : Nat) : Nat := (k * 2654435761 + 40503) % M32

/-- Modelled from the spec: derivation of the receiving chain key from a root key. -/
def kdfRecv (k : Nat) : Nat := (k * 31 + 5) % M32

/-- Modelled from the spec: derivation of the sending chain key from a root key. -/
def kdfSendC (k : Nat) : Nat := (k * 37 + 11) % M32

/-- Mixing step used by key derivation and authentication tags. -/
def h2 (a b : Nat) : Nat := (a * 65599 + b) % M32

/-- Modelled from the spec: message authentication tag over a ciphertext. -/
def macTag (k : Nat) (ct : List Nat) : Nat := ct.foldl h2 (h2 k 1)

/-- Modelled from the spec: symmetric encryption of one plaintext unit. -/
def encUnit (k n : Nat) : Nat := (n + k) % MU

/-- Modelled from the spec: symmetric decryption of one ciphertext unit. -/
def decUnit (k n : Nat) : Nat := (n + (MU - k % MU)) % MU

/-- Modelled from the spec: public key-agreement key derived from a secret. -/
def pubOf (sec : Nat) : Nat := (sec * 7919 + 3) % M32

/-- Modelled from the spec: public signing key derived from a signing secret. -/
def signPubOf (sec : Nat) : Nat := (sec * 104729 + 9) % M32

/-- Modelled from the spec: a Diffie-Hellman shared-secret computation. -/
def dhCombine (a b : Nat) : Nat := (a * b) % M32

/-- Modelled from the spec: receiver side of the X3DH-style agreement — several
Diffie-Hellman computations over the local identity secret, the consumed local
one-time secret, and the sender's public material, combined by a KDF. -/
def x3dhRecv (idSec otkSec ephPub senderIdPub : Nat) : Nat :=
  h2 (h2 (dhCombine idSec ephPub) (dhCombine otkSec ephPub)) (dhCombine otkSec senderIdPub)

/-- Modelled from the spec: sender side of the X3DH-style agreement. -/
def x3dhSend (idSec ephSec peerIdPub peerOtkPub : Nat) : Nat :=
  h2 (h2 (dhCombine idSec peerOtkPub) (dhCombine ephSec peerIdPub)) (dhCombine ephSec peerOtkPub)

/-- Modelled from the spec: session identifier deterministically derived from
both parties' public key material. -/
def sessionIdOf (a b c : Nat) : Nat := h2 (h2 a b) c

/-- Decode one plaintext unit into a character; fails on a unit that is not a
valid unicode scalar value.  Models the output-encoding validation the
boundary layer performs with `String::from_utf8`. -/
def natToChar? (n : Nat) : Option Char :=
  let c := Char.ofNat n
  if c.toNat = n then some c else none

/-- Plaintext of a string as a list of units, one per character. -/
def strEncode (s : String) : List Nat := s.data.map Char.toNat

/-- Decode a list of plaintext units into characters; fails as soon as one
unit is not a valid character. -/
def traverseChar : List Nat → Option (List Char)
  | [] => some []
  | n :: ns =>
    match natToChar? n, traverseChar ns with
    | some c, some cs => some (c :: cs)
    | _, _ => none

/-- Decode a list of plaintext units back into a string; fails exactly when
some unit is not a valid character (the EncodingOutputError situation). -/
def decodeUnits (ns : List Nat) : Option String :=
  (traverseChar ns).map String.mk

/-- Error taxonomy of the specification's §7. -/
inductive Err where
  | decoding
  | sessionEstablishment
  | authentication
  | replayOrOrdering
  | encodingOutput
deriving DecidableEq

/-- One direction of a ratchet: a chain key plus a monotonic counter. -/
structure Chain where
  key : Nat
  counter : Nat
deriving DecidableEq

/-- Modelled from the spec: the pairwise double-ratchet session state — root
key, sending chain, receiving chain, cache of skipped message keys keyed by
counter, and whether mutual establishment has completed (which decides the
initial/normal tag of outgoing envelopes). -/
structure PairSession where
  sessionId : Nat
  rootKey : Nat
  sending : Chain
  receiving : Chain
  skipped : List (Nat × Nat)
  established : Bool
deriving DecidableEq

instance : Inhabited PairSession := ⟨⟨0, 0, ⟨0, 0⟩, ⟨0, 0⟩, [], false⟩⟩

/-- A pairwise message envelope: initial/normal tag, chain counter,
ciphertext units, and authentication tag. -/
structure OlmEnvelope where
  isInitial : Bool
  counter : Nat
  ct : List Nat
  mac : Nat
deriving DecidableEq

/-- Find the cached message key for a counter in a skipped-key cache. -/
def lookupKey (i : Nat) : List (Nat × Nat) → Option Nat
  | [] => none
  | kv :: rest => if kv.1 = i then some kv.2 else lookupKey i rest

/-- Advance a chain key `gap` steps from absolute index `idx`, returning the
message keys for the skipped indices `[idx, idx+gap)` together with the chain
key at index `idx + gap`. -/
def skipKeys (key idx : Nat) : Nat → List (Nat × Nat) × Nat
  | 0 => ([], key)
  | g + 1 =>
    let rest := skipKeys (kdfNext key) (idx + 1) g
    ((idx, kdfMsg key) :: rest.1, rest.2)

/-- Modelled from the spec: pairwise encrypt — derive the next message key
from the sending chain, encrypt and authenticate, tag the envelope initial or
normal, then advance the sending chain one-way and bump its counter. -/
def PairSession.encryptEnv (s : PairSession) (p : String) : OlmEnvelope × PairSession :=
  let mkey := kdfMsg s.sending.key
  let ct := (strEncode p).map (encUnit mkey)
  (⟨!s.established, s.sending.counter, ct, macTag mkey ct⟩,
   { s with sending := ⟨kdfNext s.sending.key, s.sending.counter + 1⟩ })

/-- Modelled from the spec: pairwise decrypt on a parsed envelope.  A counter
behind the receiving chain is served from the skipped-key cache (consuming
the entry) or rejected as replay; a counter at or ahead of the chain derives
and caches the intermediate keys and advances the chain.  Authentication is
checked before any state is committed, so every failure leaves the state
unchanged (errors carry no new state; the caller keeps the old one). -/
def PairSession.decryptEnv (s : PairSession) (env : OlmEnvelope) :
    Except Err (List Nat × PairSession) :=
  if env.counter < s.receiving.counter then
    match lookupKey env.counter s.skipped with
    | none => .error .replayOrOrdering
    | some mkey =>
      if env.mac = macTag mkey env.ct then
        .ok (env.ct.map (decUnit mkey),
          { s with skipped := s.skipped.filter (fun kv => kv.1 ≠ env.counter),
                   established := true })
      else .error .authentication
  else
    let adv := skipKeys s.receiving.key s.receiving.counter (env.counter - s.receiving.counter)
    let mkey := kdfMsg adv.2
    if env.mac = macTag mkey env.ct then
      .ok (env.ct.map (decUnit mkey),
        { s with receiving := ⟨kdfNext adv.2, env.counter + 1⟩,
                 skipped := s.skipped ++ adv.1,
                 established := true })
    else .error .authentication

/-- Pairwise decrypt of an envelope down to a string: inner ratchet decrypt
followed by output-encoding validation. -/
def PairSession.decryptMsg (s : PairSession) (env : OlmEnvelope) :
    Except Err (String × PairSession) :=
  match s.decryptEnv env with
  | .error e => .error e
  | .ok (pt, s') =>
    match decodeUnits pt with
    | some str => .ok (str, s')
    | none => .error .encodingOutput

/-- Boundary layer, from `EfSecSession::session_id` in `lib.rs`: read-only
accessor on a shared borrow — the session state passes through unchanged. -/
def EfSecSession.session_id (s : PairSession) : String × PairSession :=
  (toString s.sessionId, s)

/-- Boundary layer, from `EfSecSession::encrypt` in `lib.rs`: encrypt with the
inner session, then serialize the envelope; a serialization failure is
replaced by the default empty string (`unwrap_or_default`). -/
def EfSecSession.encrypt (ser : OlmEnvelope → Option String) (s : PairSession)
    (p : String) : String × PairSession :=
  let r := s.encryptEnv p
  ((ser r.1).getD "", r.2)

/-- Boundary layer, from `EfSecSession::decrypt` in `lib.rs`: parse the
message string, decrypt with the inner session, then validate the plaintext
bytes as a string.  On a parse or inner-decrypt failure the caller's state is
the old one; after a successful inner decrypt the session has already
advanced, whatever the validation step then returns. -/
def EfSecSession.decrypt (parse : String → Option OlmEnvelope) (s : PairSession)
    (msg : String) : Except Err String × PairSession :=
  match parse msg with
  | none => (.error .decoding, s)
  | some env =>
    match s.decryptEnv env with
    | .error e => (.error e, s)
    | .ok (pt, s') =>
      match decodeUnits pt with
      | some str => (.ok str, s')
      | none => (.error .encodingOutput, s')

/-- Two pairwise sessions are correctly mirrored when the receiver's receiving
chain coincides with the sender's sending chain. -/
def Mirrored (sA sB : PairSession) : Prop := sB.receiving = sA.sending

instance (sA sB : PairSession) : Decidable (Mirrored sA sB) := by
  unfold Mirrored
  infer_instance

/-- Modelled from the spec: account state — the identity key-agreement secret,
the signing secret, the one-time key pool (key id paired with its secret), and
the id counter used for fresh one-time keys. -/
structure Account where
  identitySec : Nat
  signSec : Nat
  otks : List (Nat × Nat)
  nextId : Nat
deriving DecidableEq

/-- Modelled from the spec: a fresh one-time secret for a given id (stands in
for the external random source, which is out of scope). -/
def otkFresh (seed : Nat) : Nat := (seed * 48271 + 13) % M32

/-- Modelled from the spec: append `count` freshly generated one-time keypairs
to the pool, each with a unique id. -/
def Account.generate_one_time_keys (a : Account) (count : Nat) : Account :=
  { a with
    otks := a.otks ++ (List.range count).map (fun i => (a.nextId + i, otkFresh (a.nextId + i))),
    nextId := a.nextId + count }

/-- The public identity key-agreement key and public signing key. -/
def Account.identityKeyPair (a : Account) : Nat × Nat :=
  (pubOf a.identitySec, signPubOf a.signSec)

/-- The currently unused one-time public keys, with their ids. -/
def Account.publicOtks (a : Account) : List (Nat × Nat) :=
  a.otks.map (fun kv => (kv.1, pubOf kv.2))

/-- A parsed initial ("prekey") message: the referenced local one-time key id,
the sender's ephemeral public key, and the first encrypted message. -/
structure PreKeyMsg where
  otkId : Nat
  ephPub : Nat
  ct : List Nat
  mac : Nat
deriving DecidableEq

/-- Modelled from the spec: inner inbound session establishment — identify the
referenced local one-time key (a missing id is a session-establishment
failure), perform the mirrored key agreement, check the embedded
authentication tag, and on success return the session, the decrypted
plaintext of the first message, and the account with the consumed one-time
key permanently removed from the pool. -/
def Account.createInbound (a : Account) (senderIdPub : Nat) (m : PreKeyMsg) :
    Except Err (PairSession × List Nat × Account) :=
  match lookupKey m.otkId a.otks with
  | none => .error .sessionEstablishment
  | some otkSec =>
    let root := x3dhRecv a.identitySec otkSec m.ephPub senderIdPub
    let c0 := kdfRecv root
    let mkey := kdfMsg c0
    if m.mac = macTag mkey m.ct then
      .ok ({ sessionId := sessionIdOf senderIdPub (pubOf a.identitySec) m.ephPub,
             rootKey := root,
             sending := ⟨kdfSendC root, 0⟩,
             receiving := ⟨kdfNext c0, 1⟩,
             skipped := [],
             established := true },
           m.ct.map (decUnit mkey),
           { a with otks := a.otks.filter (fun kv => kv.1 ≠ m.otkId) })
    else .error .authentication

/-- Modelled from the spec: inner outbound session establishment on a shared
borrow of the account — an ephemeral secret (standing in for the external
random source) is combined with the peer's keys by the X3DH-style agreement;
no local one-time key is involved. -/
def Account.createOutbound (a : Account) (peerIdPub peerOtkPub : Nat) : PairSession :=
  let ephSec := h2 (h2 a.identitySec peerIdPub) peerOtkPub
  let root := x3dhSend a.identitySec ephSec peerIdPub peerOtkPub
  { sessionId := sessionIdOf (pubOf a.identitySec) peerIdPub (pubOf ephSec),
    rootKey := root,
    sending := ⟨kdfRecv root, 0⟩,
    receiving := ⟨kdfSendC root, 0⟩,
    skipped := [],
    established := false }

/-- Decimal digit value of a character, if it is a digit. -/
def digitVal? (c : Char) : Option Nat :=
  if 48 ≤ c.toNat ∧ c.toNat ≤ 57 then some (c.toNat - 48) else none

/-- Parse a non-empty run of decimal digits. -/
def parseDigits (acc : Nat) : List Char → Option Nat
  | [] => some acc
  | c :: cs =>
    match digitVal? c with
    | none => none
    | some d => parseDigits (acc * 10 + d) cs

/-- Concrete stand-in for the external public-key codec: a well-formed encoded
public key is a non-empty decimal numeral; anything else is malformed. -/
def parseKeyStr (s : String) : Option Nat :=
  match s.data with
  | [] => none
  | c :: cs => parseDigits 0 (c :: cs)

/-- Boundary layer, from `EfSecAccount::identity_keys` in `lib.rs`: serialize
the identity keys on a shared borrow; a serialization failure is replaced by
the default empty string (`unwrap_or_default`). -/
def EfSecAccount.identity_keys (ser : Nat × Nat → Option String) (a : Account) :
    String × Account :=
  ((ser a.identityKeyPair).getD "", a)

/-- Boundary layer, from `EfSecAccount::one_time_keys` in `lib.rs`: serialize
the unused one-time public keys on a shared borrow; a serialization failure is
replaced by the default empty string (`unwrap_or_default`). -/
def EfSecAccount.one_time_keys (ser : List (Nat × Nat) → Option String) (a : Account) :
    String × Account :=
  ((ser a.publicOtks).getD "", a)

/-- Boundary layer, from `EfSecAccount::create_outbound_session` in `lib.rs`:
parse the peer identity key, then the peer one-time key, each failure surfaced
as a decoding error; with both parsed, create the session on a shared borrow
of the account. -/
def EfSecAccount.create_outbound_session (a : Account) (identity_key one_time_key : String) :
    Except Err PairSession × Account :=
  match parseKeyStr identity_key with
  | none => (.error .decoding, a)
  | some k1 =>
    match parseKeyStr one_time_key with
    | none => (.error .decoding, a)
    | some k2 => (.ok (a.createOutbound k1 k2), a)

/-- Boundary layer, from `EfSecAccount::create_inbound_session` in `lib.rs`:
parse the peer identity key, then the prekey message, call the inner engine,
and build the result from `result.session` alone — the decrypted plaintext of
the inner result is dropped on the floor. -/
def EfSecAccount.create_inbound_session (parse : String → Option PreKeyMsg)
    (a : Account) (identity_key message : String) : Except Err PairSession × Account :=
  match parseKeyStr identity_key with
  | none => (.error .decoding, a)
  | some k =>
    match parse message with
    | none => (.error .decoding, a)
    | some m =>
      match a.createInbound k m with
      | .error e => (.error e, a)
      | .ok r => (.ok r.1, r.2.2)

/-- Modelled from the spec: outbound group session state — ratchet chain key,
strictly monotonic message index, and the signing secret. -/
structure GroupSession where
  chainKey : Nat
  index : Nat
  signSec : Nat
deriving DecidableEq

/-- A group message envelope: embedded index, ciphertext units, authentication
tag, and signature. -/
structure GroupEnvelope where
  index : Nat
  ct : List Nat
  mac : Nat
  sig : Nat
deriving DecidableEq

/-- The exported group session key: the chain key bound to its starting index,
plus the public signing key for verification. -/
structure GroupExport where
  chainKey : Nat
  index : Nat
  signPub : Nat
deriving DecidableEq

/-- Hash of the signed portion of a group envelope. -/
def envHash (idx : Nat) (ct : List Nat) (mac : Nat) : Nat := h2 idx (macTag mac ct)

/-- Modelled from the spec: group encrypt — derive the message key from the
chain key at the current index, encrypt and authenticate, sign the envelope,
embed the index, then advance the chain key one-way and bump the index. -/
def GroupSession.encryptEnv (g : GroupSession) (p : String) : GroupEnvelope × GroupSession :=
  let mkey := kdfMsg g.chainKey
  let ct := (strEncode p).map (encUnit mkey)
  let mac := macTag mkey ct
  (⟨g.index, ct, mac, h2 (signPubOf g.signSec) (envHash g.index ct mac)⟩,
   { g with chainKey := kdfNext g.chainKey, index := g.index + 1 })

/-- Encrypt a list of plaintexts in order, keeping only the final state. -/
def encryptMany : List String → GroupSession → GroupSession
  | [], g => g
  | p :: ps, g => encryptMany ps (g.encryptEnv p).2

/-- Modelled from the spec: `session_key` exports the current chain key and
starting index, together with the public signing key, on a shared borrow. -/
def GroupSession.sessionKeyExport (g : GroupSession) : GroupExport :=
  ⟨g.chainKey, g.index, signPubOf g.signSec⟩

/-- Modelled from the spec: inbound group session state — the chain key at the
furthest ratcheted-to index, the first index the exported seed can ever reach,
the cache of derived-but-unconsumed keys behind the current position, and the
sender's public signing key. -/
structure InboundGroupSession where
  chainKey : Nat
  nextIndex : Nat
  firstKnownIndex : Nat
  cache : List (Nat × Nat)
  signPub : Nat
deriving DecidableEq

/-- Modelled from the spec: construct an inbound group session from a session
key export, positioned at the exported starting index. -/
def inboundOfExport (e : GroupExport) : InboundGroupSession :=
  ⟨e.chainKey, e.index, e.index, [], e.signPub⟩

/-- Modelled from the spec: inbound group decrypt on a parsed envelope.  The
signature is verified first (a distinct authenticity failure); an index below
the exported starting index fails permanently (the forward-secrecy boundary);
an index behind the current position is served from the cache (consuming the
entry) or rejected as replay; an index at or ahead advances the chain one-way,
caching the intermediate keys.  Every failure leaves the state unchanged. -/
def InboundGroupSession.decryptEnv (s : InboundGroupSession) (env : GroupEnvelope) :
    Except Err (List Nat × InboundGroupSession) :=
  if env.sig = h2 s.signPub (envHash env.index env.ct env.mac) then
    if env.index < s.firstKnownIndex then .error .replayOrOrdering
    else if env.index < s.nextIndex then
      match lookupKey env.index s.cache with
      | none => .error .replayOrOrdering
      | some mkey =>
        if env.mac = macTag mkey env.ct then
          .ok (env.ct.map (decUnit mkey),
            { s with cache := s.cache.filter (fun kv => kv.1 ≠ env.index) })
        else .error .authentication
    else
      let adv := skipKeys s.chainKey s.nextIndex (env.index - s.nextIndex)
      let mkey := kdfMsg adv.2
      if env.mac = macTag mkey env.ct then
        .ok (env.ct.map (decUnit mkey),
          { s with chainKey := kdfNext adv.2,
                   nextIndex := env.index + 1,
                   cache := s.cache ++ adv.1 })
      else .error .authentication
  else .error .authentication

/-- Inbound group decrypt of an envelope down to a string: inner decrypt
followed by output-encoding validation. -/
def InboundGroupSession.decryptMsg (s : InboundGroupSession) (env : GroupEnvelope) :
    Except Err (String × InboundGroupSession) :=
  match s.decryptEnv env with
  | .error e => .error e
  | .ok (pt, s') =>
    match decodeUnits pt with
    | some str => .ok (str, s')
    | none => .error .encodingOutput

/-- Boundary layer, from `EfSecOutboundGroupSession::encrypt` in `lib.rs`:
encrypt with the inner session and encode the envelope (`to_base64`, which
cannot fail, so the encoder here is total). -/
def EfSecOutboundGroupSession.encrypt (enc : GroupEnvelope → String) (g : GroupSession)
    (p : String) : String × GroupSession :=
  let r := g.encryptEnv p
  (enc r.1, r.2)

/-- Boundary layer, from `EfSecInboundGroupSession::new` in `lib.rs`: decode
the session key string, surfacing a decode failure, and construct the inbound
session. -/
def EfSecInboundGroupSession.new (parse : String → Option GroupExport)
    (session_key : String) : Except Err InboundGroupSession :=
  match parse session_key with
  | none => .error .decoding
  | some e => .ok (inboundOfExport e)

/-- Boundary layer, from `EfSecInboundGroupSession::decrypt` in `lib.rs`:
decode the message string, decrypt with the inner session, then validate the
plaintext bytes as a string.  On a decode or inner-decrypt failure the
caller's state is the old one; after a successful inner decrypt the session
has already advanced, whatever the validation step then returns. -/
def EfSecInboundGroupSession.decrypt (parse : String → Option GroupEnvelope)
    (s : InboundGroupSession) (msg : String) : Except Err String × InboundGroupSession :=
  match parse msg with
  | none => (.error .decoding, s)
  | some env =>
    match s.decryptEnv env with
    | .error e => (.error e, s)
    | .ok (pt, s') =>
      match decodeUnits pt with
      | some str => (.ok str, s')
      | none => (.error .encodingOutput, s')

/-! ### Basic lemmas -/

theorem char_toNat_lt (c : Char) : c.toNat < MU := by
  have h := c.valid
  show Char.toNat c < 1114112
  simp only [Char.toNat]
  rcases h with h | h
  · omega
  · omega

theorem decUnit_encUnit (k n : Nat) (h : n < MU) : decUnit k (encUnit k n) = n := by
  have hMU : MU = 1114112 := rfl
  unfold decUnit encUnit
  rw [hMU] at h ⊢
  rw [Nat.mod_add_mod]
  omega

theorem natToChar?_toNat (c : Char) : natToChar? c.toNat = some c := by
  unfold natToChar?
  rw [Char.ofNat_toNat]
  simp

theorem traverseChar_map (l : List Char) :
    traverseChar (l.map Char.toNat) = some l := by
  induction l with
  | nil => rfl
  | cons c cs ih => simp [traverseChar, natToChar?_toNat, ih]

theorem decodeUnits_strEncode (s : String) : decodeUnits (strEncode s) = some s := by
  unfold decodeUnits strEncode
  rw [traverseChar_map]
  rfl

theorem map_decUnit_encUnit (k : Nat) (s : String) :
    ((strEncode s).map (encUnit k)).map (decUnit k) = strEncode s := by
  rw [List.map_map]
  have h : ∀ n ∈ strEncode s, (decUnit k ∘ encUnit k) n = n := by
    intro n hn
    rcases List.mem_map.mp hn with ⟨c, _, rfl⟩
    exact decUnit_encUnit k c.toNat (char_toNat_lt c)
  calc (strEncode s).map (decUnit k ∘ encUnit k)
      = (strEncode s).map id := List.map_congr_left h
    _ = strEncode s := List.map_id _

theorem skipKeys_snd (g : Nat) : ∀ key idx, (skipKeys key idx g).2 = kdfNext^[g] key := by
  induction g with
  | zero => intro key idx; rfl
  | succ n ih =>
    intro key idx
    simp only [skipKeys]
    rw [ih, Function.iterate_succ_apply]

theorem lookupKey_filter (i : Nat) (l : List (Nat × Nat)) :
    lookupKey i (l.filter (fun kv => kv.1 ≠ i)) = none := by
  induction l with
  | nil => rfl
  | cons kv rest ih =>
    by_cases h : kv.1 = i
    · simpa [List.filter_cons, h] using ih
    · simpa [List.filter_cons, h, lookupKey] using ih

theorem encryptEnv_snd (g : GroupSession) (p : String) :
    (g.encryptEnv p).2 = ⟨kdfNext g.chainKey, g.index + 1, g.signSec⟩ := rfl

theorem encryptMany_fields (ps : List String) : ∀ g : GroupSession,
    (encryptMany ps g).chainKey = kdfNext^[ps.length] g.chainKey ∧
    (encryptMany ps g).index = g.index + ps.length ∧
    (encryptMany ps g).signSec = g.signSec := by
  induction ps with
  | nil => intro g; exact ⟨rfl, rfl, rfl⟩
  | cons p ps ih =>
    intro g
    rw [encryptMany, encryptEnv_snd]
    rcases ih ⟨kdfNext g.chainKey, g.index + 1, g.signSec⟩ with ⟨e1, e2, e3⟩
    rw [e1, e2, e3]
    dsimp only
    refine ⟨?_, ?_, rfl⟩
    · rw [List.length_cons, Function.iterate_succ_apply]
    · rw [List.length_cons]
      omega

theorem encryptEnv_fst (s : PairSession) (p : String) :
    (s.encryptEnv p).1 = ⟨!s.established, s.sending.counter,
      (strEncode p).map (encUnit (kdfMsg s.sending.key)),
      macTag (kdfMsg s.sending.key) ((strEncode p).map (encUnit (kdfMsg s.sending.key)))⟩ := rfl

theorem pairEncryptEnv_snd (s : PairSession) (p : String) :
    (s.encryptEnv p).2 = { s with sending := ⟨kdfNext s.sending.key, s.sending.counter + 1⟩ } := rfl

theorem decryptEnv_mirrored (sA sB : PairSession) (P : String) (h : Mirrored sA sB) :
    sB.decryptEnv (sA.encryptEnv P).1
      = .ok (strEncode P,
          { sB with receiving := ⟨kdfNext sA.sending.key, sA.sending.counter + 1⟩,
                    established := true }) := by
  have h' : sB.receiving = sA.sending := h
  simp only [PairSession.decryptEnv, encryptEnv_fst, h', lt_self_iff_false, if_false,
    Nat.sub_self, skipKeys, map_decUnit_encUnit, List.append_nil, if_pos]

/-- C4: encrypting any plaintext P on one side of a correctly mirrored
pairwise session and decrypting the resulting envelope on the other side
yields exactly P, and leaves the two sessions correctly mirrored again — so
the round trip holds for the initial message (counter 0, initial tag) and for
every subsequent message. -/
theorem C4_pairwise_roundtrip (sA sB : PairSession) (P : String) (h : Mirrored sA sB) :
    ∃ sB', sB.decryptMsg (sA.encryptEnv P).1 = .ok (P, sB') ∧
      Mirrored (sA.encryptEnv P).2 sB' := by
  refine ⟨{ sB with receiving := ⟨kdfNext sA.sending.key, sA.sending.counter + 1⟩, established := true }, ?_, ?_⟩
  · unfold PairSession.decryptMsg
    rw [decryptEnv_mirrored sA sB P h]
    dsimp only
    rw [decodeUnits_strEncode]
  · rfl

/-- Witness for C4 at a concrete mirrored pair and the plaintext "hi". -/
theorem C4_pairwise_roundtrip_witness :
    ∃ sB', PairSession.decryptMsg ⟨0, 0, ⟨9, 0⟩, ⟨5, 0⟩, [], false⟩
        ((PairSession.encryptEnv ⟨1, 2, ⟨5, 0⟩, ⟨7, 0⟩, [], false⟩ "hi").1) = .ok ("hi", sB') ∧
      Mirrored (PairSession.encryptEnv ⟨1, 2, ⟨5, 0⟩, ⟨7, 0⟩, [], false⟩ "hi").2 sB' :=
  C4_pairwise_roundtrip ⟨1, 2, ⟨5, 0⟩, ⟨7, 0⟩, [], false⟩ ⟨0, 0, ⟨9, 0⟩, ⟨5, 0⟩, [], false⟩ "hi" rfl

/-- Concrete pairwise session used by witnesses and counterexamples. -/
def cexSession : PairSession := ⟨0, 0, ⟨1, 0⟩, ⟨2, 0⟩, [], true⟩

/-- A well-authenticated envelope for `cexSession` whose decrypted plaintext
is the single unit 55296, a surrogate code point that is not a valid
character, so output-encoding validation fails after inner decryption
succeeds. -/
def cexBadEnv : OlmEnvelope :=
  ⟨false, 0, [encUnit (kdfMsg 2) 55296], macTag (kdfMsg 2) [encUnit (kdfMsg 2) 55296]⟩

/-- C1 as stated is false on the code: at this concrete input the inner
decryption succeeds, output-encoding validation then fails, decrypt returns
an error — and the session state has nevertheless advanced (the receiving
chain moved past the message), so an error return does not imply the state
equals its value before the call. -/
theorem C1_counterexample :
    (EfSecSession.decrypt (fun _ => some cexBadEnv) cexSession "m").1
        = .error .encodingOutput ∧
    (EfSecSession.decrypt (fun _ => some cexBadEnv) cexSession "m").2 ≠ cexSession :=
  ⟨rfl, by decide⟩

/-- C1 amended: for every session (pairwise or inbound group) and every input
message string, if decrypt returns an error other than the output-encoding
error, the session state after the call equals its state before the call; the
output-encoding failure alone is returned after the ratchet has already
advanced. -/
theorem C1_error_atomicity_amended :
    (∀ (parse : String → Option OlmEnvelope) (s : PairSession) (m : String) (e : Err)
        (s' : PairSession),
        EfSecSession.decrypt parse s m = (.error e, s') → e ≠ .encodingOutput → s' = s) ∧
    (∀ (parse : String → Option GroupEnvelope) (s : InboundGroupSession) (m : String) (e : Err)
        (s' : InboundGroupSession),
        EfSecInboundGroupSession.decrypt parse s m = (.error e, s') → e ≠ .encodingOutput →
        s' = s) := by
  constructor
  · intro parse s m e s' hEq hNe
    unfold EfSecSession.decrypt at hEq
    cases hp : parse m with
    | none =>
      rw [hp] at hEq
      injection hEq with h1 h2
      exact h2.symm
    | some env =>
      rw [hp] at hEq
      dsimp only at hEq
      cases hd : s.decryptEnv env with
      | error e1 =>
        rw [hd] at hEq
        dsimp only at hEq
        injection hEq with h1 h2
        exact h2.symm
      | ok v =>
        obtain ⟨pt, s1⟩ := v
        rw [hd] at hEq
        dsimp only at hEq
        cases hu : decodeUnits pt with
        | none =>
          rw [hu] at hEq
          dsimp only at hEq
          injection hEq with h1 h2
          injection h1 with h3
          exact absurd h3.symm hNe
        | some str =>
          rw [hu] at hEq
          dsimp only at hEq
          injection hEq with h1 h2
          exact Except.noConfusion h1
  · intro parse s m e s' hEq hNe
    unfold EfSecInboundGroupSession.decrypt at hEq
    cases hp : parse m with
    | none =>
      rw [hp] at hEq
      injection hEq with h1 h2
      exact h2.symm
    | some env =>
      rw [hp] at hEq
      dsimp only at hEq
      cases hd : s.decryptEnv env with
      | error e1 =>
        rw [hd] at hEq
        dsimp only at hEq
        injection hEq with h1 h2
        exact h2.symm
      | ok v =>
        obtain ⟨pt, s1⟩ := v
        rw [hd] at hEq
        dsimp only at hEq
        cases hu : decodeUnits pt with
        | none =>
          rw [hu] at hEq
          dsimp only at hEq
          injection hEq with h1 h2
          injection h1 with h3
          exact absurd h3.symm hNe
        | some str =>
          rw [hu] at hEq
          dsimp only at hEq
          injection hEq with h1 h2
          exact Except.noConfusion h1

/-- Witness for the amended C1: a concrete parse failure returns the decoding
error and leaves the concrete session unchanged. -/
theorem C1_error_atomicity_amended_witness :
    (EfSecSession.decrypt (fun _ => none) cexSession "x").2 = cexSession :=
  C1_error_atomicity_amended.1 (fun _ => none) cexSession "x" .decoding cexSession rfl
    (by decide)

/-- C8: for both session kinds, when the inner decryption succeeds but the
recovered plaintext is not valid for the expected output encoding, decrypt
returns the explicit output-encoding error rather than a plaintext value. -/
theorem C8_encoding_output_error :
    (∀ (parse : String → Option OlmEnvelope) (s : PairSession) (m : String) (env : OlmEnvelope)
        (pt : List Nat) (s' : PairSession),
        parse m = some env → s.decryptEnv env = .ok (pt, s') → decodeUnits pt = none →
        (EfSecSession.decrypt parse s m).1 = .error .encodingOutput) ∧
    (∀ (parse : String → Option GroupEnvelope) (s : InboundGroupSession) (m : String)
        (env : GroupEnvelope) (pt : List Nat) (s' : InboundGroupSession),
        parse m = some env → s.decryptEnv env = .ok (pt, s') → decodeUnits pt = none →
        (EfSecInboundGroupSession.decrypt parse s m).1 = .error .encodingOutput) := by
  constructor
  · intro parse s m env pt s' hp hd hu
    unfold EfSecSession.decrypt
    rw [hp]
    dsimp only
    rw [hd]
    dsimp only
    rw [hu]
  · intro parse s m env pt s' hp hd hu
    unfold EfSecInboundGroupSession.decrypt
    rw [hp]
    dsimp only
    rw [hd]
    dsimp only
    rw [hu]

/-- Witness for C8 at the concrete surrogate-plaintext envelope. -/
theorem C8_encoding_output_error_witness :
    (EfSecSession.decrypt (fun _ => some cexBadEnv) cexSession "w").1
      = .error .encodingOutput :=
  C8_encoding_output_error.1 (fun _ => some cexBadEnv) cexSession "w" cexBadEnv
    [55296] ⟨0, 0, ⟨1, 0⟩, ⟨kdfNext 2, 1⟩, [], true⟩ rfl rfl rfl

theorem groupEncryptEnv_fst (g : GroupSession) (p : String) :
    (g.encryptEnv p).1 = ⟨g.index, (strEncode p).map (encUnit (kdfMsg g.chainKey)),
      macTag (kdfMsg g.chainKey) ((strEncode p).map (encUnit (kdfMsg g.chainKey))),
      h2 (signPubOf g.signSec)
        (envHash g.index ((strEncode p).map (encUnit (kdfMsg g.chainKey)))
          (macTag (kdfMsg g.chainKey) ((strEncode p).map (encUnit (kdfMsg g.chainKey)))))⟩ := rfl

theorem encryptMany_eq (ps : List String) : ∀ g : GroupSession,
    encryptMany ps g = ⟨kdfNext^[ps.length] g.chainKey, g.index + ps.length, g.signSec⟩ := by
  induction ps with
  | nil =>
    intro g
    cases g
    simp [encryptMany]
  | cons p ps ih =>
    intro g
    rw [encryptMany, encryptEnv_snd, ih]
    dsimp only
    rw [List.length_cons, Function.iterate_succ_apply]
    congr 1
    omega

theorem inbound_decrypt_advance (ck i0 n ss : Nat) (P : String) :
    InboundGroupSession.decryptMsg ⟨ck, i0, i0, [], signPubOf ss⟩
      ((GroupSession.encryptEnv ⟨kdfNext^[n] ck, i0 + n, ss⟩ P).1)
      = .ok (P, ⟨kdfNext (kdfNext^[n] ck), i0 + n + 1, i0,
          [] ++ (skipKeys ck i0 n).1, signPubOf ss⟩) := by
  unfold InboundGroupSession.decryptMsg InboundGroupSession.decryptEnv
  rw [groupEncryptEnv_fst]
  dsimp only
  rw [if_pos rfl]
  rw [if_neg (by omega : ¬ i0 + n < i0)]
  rw [if_neg (by omega : ¬ i0 + n < i0)]
  rw [Nat.add_sub_cancel_left]
  rw [skipKeys_snd n ck i0]
  rw [if_pos rfl]
  rw [map_decUnit_encUnit]
  dsimp only
  rw [decodeUnits_strEncode]

/-- C6: every plaintext P encrypted by an outbound group session decrypts to
exactly P under an inbound group session constructed from the outbound
session's exported session key taken at or before the message's index: the
export is taken at an arbitrary state `g0`, any messages `ps` are encrypted
in between, and the envelope for P carries the index reached after them. -/
theorem C6_group_roundtrip (g0 : GroupSession) (ps : List String) (P : String) :
    ∃ s', InboundGroupSession.decryptMsg (inboundOfExport g0.sessionKeyExport)
        ((GroupSession.encryptEnv (encryptMany ps g0) P).1) = .ok (P, s') := by
  refine ⟨⟨kdfNext (kdfNext^[ps.length] g0.chainKey), g0.index + ps.length + 1, g0.index,
      [] ++ (skipKeys g0.chainKey g0.index ps.length).1, signPubOf g0.signSec⟩, ?_⟩
  rw [encryptMany_eq]
  exact inbound_decrypt_advance g0.chainKey g0.index ps.length g0.signSec P

theorem decryptEnv_low_index (s : InboundGroupSession) (env : GroupEnvelope)
    (h : env.index < s.firstKnownIndex) :
    s.decryptEnv env = .error .replayOrOrdering ∨
    s.decryptEnv env = .error .authentication := by
  unfold InboundGroupSession.decryptEnv
  by_cases hs : env.sig = h2 s.signPub (envHash env.index env.ct env.mac)
  · rw [if_pos hs, if_pos h]
    exact Or.inl rfl
  · rw [if_neg hs]
    exact Or.inr rfl

/-- C7: a message whose embedded index is strictly below the inbound group
session's exported starting index never decrypts: with a valid signature it
fails with the replay/ordering error (with a forged signature the
authenticity check fails first, per the specification's check order); the
result is never a plaintext; the boundary decrypt leaves the state unchanged,
so the failure is deterministic and permanent; and no successful decrypt ever
changes the starting index, so no key before it can ever be derived. -/
theorem C7_forward_secrecy_boundary :
    (∀ (s : InboundGroupSession) (env : GroupEnvelope),
        env.index < s.firstKnownIndex →
        env.sig = h2 s.signPub (envHash env.index env.ct env.mac) →
        s.decryptEnv env = .error .replayOrOrdering) ∧
    (∀ (s : InboundGroupSession) (env : GroupEnvelope) (pt : List Nat)
        (s' : InboundGroupSession),
        env.index < s.firstKnownIndex → s.decryptEnv env ≠ .ok (pt, s')) ∧
    (∀ (parse : String → Option GroupEnvelope) (s : InboundGroupSession) (m : String)
        (env : GroupEnvelope),
        parse m = some env → env.index < s.firstKnownIndex →
        (EfSecInboundGroupSession.decrypt parse s m).2 = s) ∧
    (∀ (s : InboundGroupSession) (env : GroupEnvelope) (pt : List Nat)
        (s' : InboundGroupSession),
        s.decryptEnv env = .ok (pt, s') → s'.firstKnownIndex = s.firstKnownIndex) := by
  refine ⟨?_, ?_, ?_, ?_⟩
  · intro s env h hs
    unfold InboundGroupSession.decryptEnv
    rw [if_pos hs, if_pos h]
  · intro s env pt s' h
    rcases decryptEnv_low_index s env h with he | he <;> rw [he] <;>
      exact fun hc => Except.noConfusion hc
  · intro parse s m env hp h
    unfold EfSecInboundGroupSession.decrypt
    rw [hp]
    dsimp only
    rcases decryptEnv_low_index s env h with he | he <;> rw [he]
  · intro s env pt s' hok
    unfold InboundGroupSession.decryptEnv at hok
    dsimp only at hok
    split at hok
    · split at hok
      · exact Except.noConfusion hok
      · split at hok
        · split at hok
          · exact Except.noConfusion hok
          · split at hok
            · injection hok with h1
              injection h1 with h2 h3
              rw [← h3]
            · exact Except.noConfusion hok
        · split at hok
          · injection hok with h1
            injection h1 with h2 h3
            rw [← h3]
          · exact Except.noConfusion hok
    · exact Except.noConfusion hok

/-- Concrete inbound group session starting at index 10. -/
def cexInbound : InboundGroupSession := ⟨5, 10, 10, [], signPubOf 3⟩

/-- A correctly signed empty envelope at index 4, below the starting index. -/
def cexLowEnv : GroupEnvelope :=
  ⟨4, [], macTag 0 [], h2 (signPubOf 3) (envHash 4 [] (macTag 0 []))⟩

/-- Witness for C7 at the concrete session and low-index envelope. -/
theorem C7_forward_secrecy_boundary_witness :
    InboundGroupSession.decryptEnv cexInbound cexLowEnv = .error .replayOrOrdering :=
  C7_forward_secrecy_boundary.1 cexInbound cexLowEnv (by decide) rfl


/-- Concrete account: identity secret 3, signing secret 4, one unused
one-time key with id 0 and secret 7. -/
def wAccount : Account := ⟨3, 4, [(0, 7)], 1⟩

/-- The message key the receiver derives for the concrete prekey message. -/
def wMsgKey : Nat := kdfMsg (kdfRecv (x3dhRecv 3 7 13 11))

/-- A well-formed prekey message referencing local one-time key id 0 and
carrying the encrypted first message "hello", sent by the peer with identity
public key 11 and ephemeral public key 13. -/
def wPrekeyMsg : PreKeyMsg :=
  ⟨0, 13, (strEncode "hello").map (encUnit wMsgKey),
   macTag wMsgKey ((strEncode "hello").map (encUnit wMsgKey))⟩

/-- Concrete prekey-message codec recognizing exactly the string "m1". -/
def wParse : String → Option PreKeyMsg :=
  fun s => if s = "m1" then some wPrekeyMsg else none

/-- The pairwise session the concrete inbound establishment constructs. -/
def wSession : PairSession :=
  ⟨sessionIdOf 11 (pubOf 3) 13, x3dhRecv 3 7 13 11,
   ⟨kdfSendC (x3dhRecv 3 7 13 11), 0⟩,
   ⟨kdfNext (kdfRecv (x3dhRecv 3 7 13 11)), 1⟩, [], true⟩

/-- C2 on the code: at a concrete well-formed prekey message the inner engine
returns both the constructed session and the decrypted plaintext "hello", but
the boundary create_inbound_session builds its result from the session alone,
so the decrypted first message never reaches the caller. -/
theorem C2_plaintext_dropped :
    Account.createInbound wAccount 11 wPrekeyMsg
        = .ok (wSession, strEncode "hello", ⟨3, 4, [], 1⟩) ∧
    EfSecAccount.create_inbound_session wParse wAccount "11" "m1"
        = (.ok wSession, ⟨3, 4, [], 1⟩) :=
  ⟨rfl, rfl⟩

/-- C3 on the code: with a failing serializer, identity_keys, one_time_keys
and pairwise encrypt all return the default empty string instead of surfacing
the serialization failure as an explicit failure value. -/
theorem C3_serialization_failure_swallowed :
    (EfSecAccount.identity_keys (fun _ => none) wAccount).1 = "" ∧
    (EfSecAccount.one_time_keys (fun _ => none) wAccount).1 = "" ∧
    (EfSecSession.encrypt (fun _ => none) cexSession "hi").1 = "" :=
  ⟨rfl, rfl, rfl⟩

theorem createInbound_ok (a : Account) (sid : Nat) (m : PreKeyMsg) (s : PairSession)
    (pt : List Nat) (a' : Account) (h : a.createInbound sid m = .ok (s, pt, a')) :
    a'.otks = a.otks.filter (fun kv => kv.1 ≠ m.otkId) := by
  unfold Account.createInbound at h
  cases hl : lookupKey m.otkId a.otks with
  | none =>
    rw [hl] at h
    exact Except.noConfusion h
  | some otkSec =>
    rw [hl] at h
    dsimp only at h
    split at h
    · injection h with h1
      injection h1 with h2 h3
      injection h3 with h4 h5
      rw [← h5]
    · exact Except.noConfusion h

theorem createInbound_missing (a : Account) (sid : Nat) (m : PreKeyMsg)
    (h : lookupKey m.otkId a.otks = none) :
    a.createInbound sid m = .error .sessionEstablishment := by
  unfold Account.createInbound
  rw [h]

theorem create_inbound_session_ok (parse : String → Option PreKeyMsg) (a : Account)
    (ik ms : String) (s1 : PairSession) (a1 : Account)
    (h : EfSecAccount.create_inbound_session parse a ik ms = (.ok s1, a1)) :
    ∃ k m pt, parseKeyStr ik = some k ∧ parse ms = some m ∧
      a.createInbound k m = .ok (s1, pt, a1) := by
  unfold EfSecAccount.create_inbound_session at h
  cases hik : parseKeyStr ik with
  | none =>
    rw [hik] at h
    dsimp only at h
    injection h with hx hy
    exact Except.noConfusion hx
  | some k =>
    rw [hik] at h
    dsimp only at h
    cases hm : parse ms with
    | none =>
      rw [hm] at h
      dsimp only at h
      injection h with hx hy
      exact Except.noConfusion hx
    | some m =>
      rw [hm] at h
      dsimp only at h
      cases hcr : a.createInbound k m with
      | error e =>
        rw [hcr] at h
        dsimp only at h
        injection h with hx hy
        exact Except.noConfusion hx
      | ok r =>
        obtain ⟨s0, pt0, a0⟩ := r
        rw [hcr] at h
        dsimp only at h
        injection h with hx hy
        injection hx with hs
        exact ⟨k, m, pt0, rfl, rfl, by rw [hcr, hs, hy]⟩

/-- C5: once a one-time key has been consumed by a successful inbound session
establishment, any second establishment call whose initial message references
the same one-time key id fails with the session-establishment error, and the
key is permanently gone from the pool. -/
theorem C5_one_time_key_single_use
    (parse : String → Option PreKeyMsg) (a : Account) (ik ik2 m1s m2s : String)
    (m1 m2 : PreKeyMsg) (s1 : PairSession) (a1 : Account) (k2 : Nat)
    (hm1 : parse m1s = some m1) (hm2 : parse m2s = some m2)
    (hsame : m2.otkId = m1.otkId)
    (hik2 : parseKeyStr ik2 = some k2)
    (h1 : EfSecAccount.create_inbound_session parse a ik m1s = (.ok s1, a1)) :
    EfSecAccount.create_inbound_session parse a1 ik2 m2s
        = (.error .sessionEstablishment, a1) ∧
    lookupKey m1.otkId a1.otks = none := by
  obtain ⟨k, m, pt, hik, hm1x, hcr⟩ := create_inbound_session_ok parse a ik m1s s1 a1 h1
  rw [hm1] at hm1x
  injection hm1x with hmm
  subst hmm
  have hotks := createInbound_ok a k m1 s1 pt a1 hcr
  have hnone : lookupKey m1.otkId a1.otks = none := by
    rw [hotks]
    exact lookupKey_filter _ _
  refine ⟨?_, hnone⟩
  unfold EfSecAccount.create_inbound_session
  rw [hik2]
  dsimp only
  rw [hm2]
  dsimp only
  rw [createInbound_missing a1 k2 m2 (by rw [hsame]; exact hnone)]

/-- Witness for C5 at the concrete account: after the successful first call
consumed key id 0, the replayed prekey message fails with the
session-establishment error and the pool stays empty. -/
theorem C5_one_time_key_single_use_witness :
    EfSecAccount.create_inbound_session wParse ⟨3, 4, [], 1⟩ "11" "m1"
        = (.error .sessionEstablishment, ⟨3, 4, [], 1⟩) ∧
    lookupKey wPrekeyMsg.otkId (⟨3, 4, [], 1⟩ : Account).otks = none :=
  C5_one_time_key_single_use wParse wAccount "11" "11" "m1" "m1" wPrekeyMsg wPrekeyMsg
    wSession ⟨3, 4, [], 1⟩ 11 rfl rfl rfl rfl rfl

/-- C9: create_outbound_session fails with the decoding error exactly when at
least one of the supplied peer key strings is malformed, and returns a new
pairwise session without error when both decode. -/
theorem C9_outbound_session_decoding (a : Account) (ik otk : String) :
    ((EfSecAccount.create_outbound_session a ik otk).1 = .error .decoding ↔
      parseKeyStr ik = none ∨ parseKeyStr otk = none) ∧
    (∀ k1 k2, parseKeyStr ik = some k1 → parseKeyStr otk = some k2 →
      EfSecAccount.create_outbound_session a ik otk = (.ok (a.createOutbound k1 k2), a)) := by
  unfold EfSecAccount.create_outbound_session
  cases h1 : parseKeyStr ik with
  | none =>
    constructor
    · simp
    · intro k1 k2 hk1 hk2
      exact Option.noConfusion hk1
  | some k1 =>
    cases h2 : parseKeyStr otk with
    | none =>
      constructor
      · simp
      · intro k1x k2x hk1 hk2
        exact Option.noConfusion hk2
    | some k2 =>
      constructor
      · simp
      · intro k1x k2x hk1 hk2
        injection hk1 with e1
        injection hk2 with e2
        rw [← e1, ← e2]

/-- Witness for C9 at two well-formed key strings. -/
theorem C9_outbound_session_decoding_witness :
    EfSecAccount.create_outbound_session wAccount "11" "12"
        = (.ok (Account.createOutbound wAccount 11 12), wAccount) :=
  (C9_outbound_session_decoding wAccount "11" "12").2 11 12 rfl rfl

/-- C10: identity_keys, one_time_keys, session_id and create_outbound_session
operate on shared borrows of their receiver: each returns the receiver
unchanged, and in particular create_outbound_session consumes no local
one-time key. -/
theorem C10_readonly_accessors :
    (∀ (ser : Nat × Nat → Option String) (a : Account),
        (EfSecAccount.identity_keys ser a).2 = a) ∧
    (∀ (ser : List (Nat × Nat) → Option String) (a : Account),
        (EfSecAccount.one_time_keys ser a).2 = a) ∧
    (∀ s : PairSession, (EfSecSession.session_id s).2 = s) ∧
    (∀ (a : Account) (ik otk : String),
        (EfSecAccount.create_outbound_session a ik otk).2 = a ∧
        ((EfSecAccount.create_outbound_session a ik otk).2).otks = a.otks) := by
  refine ⟨fun _ _ => rfl, fun _ _ => rfl, fun _ => rfl, fun a ik otk => ?_⟩
  have h : (EfSecAccount.create_outbound_session a ik otk).2 = a := by
    unfold EfSecAccount.create_outbound_session
    cases parseKeyStr ik with
    | none => rfl
    | some k1 =>
      cases parseKeyStr otk with
      | none => rfl
      | some k2 => rfl
  exact ⟨h, by rw [h]⟩

end EfSec